import Mathlib

/-!
A shallow embedding of the core logic of the `embed-image` utility
(sources: `src/main.rs`, `src/overlay.rs`, `src/walk.rs`).

Machine integers (`u32`) are modelled as `Nat`, with explicit wrap-around
arithmetic at the one place where the source can underflow.  Fallible steps
are modelled with `Option`/`Except`.  String data is modelled as `List Char`
where character-level structure matters (filename splitting), and as `String`
where only equality matters (position keywords, path components).
-/

/-- Wrapping `u32` subtraction, the release-mode semantics of `a - b` on
`u32` operands (`4294967296 = 2^32`).  For `a, b < 2^32` this is
`(a - b) mod 2^32`; when `b ≤ a` it coincides with ordinary subtraction. -/
def wsub (a b : Nat) : Nat :=
  (4294967296 + a - b) % 4294967296

/-- The QR side length requested from the renderer, from
`orig_width.min(orig_height).div(3).max(200)` in `main.rs` (and identically
in `overlay.rs`); `w`, `h` are the decoded image width and height. -/
def pixel_len (w h : Nat) : Nat :=
  Nat.max (Nat.min w h / 3) 200

/-- The placement-offset computation: the `match qr_position.as_deref()`
expression of `main.rs` (duplicated verbatim in `overlay.rs`).  `w`, `h` are
the source image dimensions and `q` the actual rendered QR side
(`real_pixel_len`), all `u32`.  The match on a `&str` is rendered as the
equality chain it compiles to.  The extra `Bool` in the result records
whether the `warn!` branch of the catch-all arm fires.  The subtractions are
`u32` subtractions, which wrap in release builds (`wsub`). -/
def qrOffset (pos : Option String) (w h q : Nat) : (Nat × Nat) × Bool :=
  match pos with
  | none => ((0, 0), false)
  | some p =>
    if p = "top-right" then ((wsub w q, 0), false)
    else if p = "bottom-left" then ((0, wsub h q), false)
    else if p = "bottom-right" then ((wsub w q, wsub h q), false)
    else if p = "center" then ((wsub w q / 2, wsub h q / 2), false)
    else ((0, 0), p != "top-left")

/-- Rust `str::split('.')` specialised to filenames: the list of
`.`-separated components, in order.  The result is always nonempty
(splitting the empty string yields one empty component, like Rust). -/
def splitOnDot : List Char → List (List Char)
  | [] => [[]]
  | c :: cs =>
    let r := splitOnDot cs
    if c = '.' then [] :: r
    else (c :: r.headD []) :: r.tail

/-- Rust std `Path::extension` restricted to a bare filename: `none` when
the name has no embedded `.`, or when it begins with `.` and has no other
`.`; otherwise the portion after the final `.`. -/
def rustExtension (name : List Char) : Option (List Char) :=
  let parts := splitOnDot name
  if parts.length ≤ 1 then none
  else if parts.headD [] = [] ∧ parts.length = 2 then none
  else parts.getLast?

/-- The output file name computed in `main.rs`:
`file_name.split(".").nth(0).unwrap() + "_merged." + ext`, where `ext` is
`"png"` when `qrcode_overlap` is set and `img.extension().unwrap()`
otherwise.  `none` models the panic of that `unwrap` when the source name
has no extension.  (`split(".").nth(0)` never panics: a split is nonempty.) -/
def outputFn (fileName : List Char) (qrcode_overlap : Bool) : Option (List Char) :=
  let stem := (splitOnDot fileName).headD []
  let ext := if qrcode_overlap then some ("png".toList) else rustExtension fileName
  ext.map (fun e => stem ++ ("_merged.".toList) ++ e)

/-- Modelled from the words of the spec only, for comparison with
`outputFn`: the source image filename stem in the usual sense (Rust std
`Path::file_stem`) — everything before the final `.`, except that a name
beginning with `.` and containing no other `.` is its own stem. -/
def fileStem (name : List Char) : Option (List Char) :=
  match splitOnDot name with
  | [] => none
  | [s] => some s
  | [] :: [q] => some ('.' :: q)
  | parts => some (List.intercalate ['.'] parts.dropLast)

/-- The bytes written as the raw image prefix of the output file, together
with whether the overlap warning fires: the
`if let Some(pass) = password.as_deref() && qrcode_overlap` branch of
`main`.  `imgData` stands for the source file bytes read by `fs::read`,
`pngEncoded` for the PNG encoding of the composited image.  In the else
branch the code warns exactly when `qrcode_overlap` is set, then copies the
source bytes verbatim. -/
def writtenBytes (password : Option String) (qrcode_overlap : Bool)
    (imgData pngEncoded : List Nat) : List Nat × Bool :=
  match password, qrcode_overlap with
  | some _, true => (pngEncoded, false)
  | _, b => (imgData, b)

mutual
/-- A model filesystem node: a regular file, a readable or unreadable
directory, or anything else (e.g. a broken symlink, for which both
`is_file()` and `is_dir()` are false and `read_dir` fails). -/
inductive FsNode : Type where
  | file : FsNode
  | other : FsNode
  | dir : Bool → EntryList → FsNode
/-- The outcomes yielded while iterating `read_dir`: `consErr` is an entry
whose `Result` is an `Err` (dropped by the `.flatten()` in the source),
`consOk name node` an entry read successfully. -/
inductive EntryList : Type where
  | nil : EntryList
  | consErr : EntryList → EntryList
  | consOk : String → FsNode → EntryList → EntryList
end

/-- Rust `path.is_dir()` on a model node. -/
def FsNode.isDirNode : FsNode → Bool
  | .dir _ _ => true
  | _ => false

/-- Rust `path.is_file()` on a model node. -/
def FsNode.isFileNode : FsNode → Bool
  | .file => true
  | _ => false

mutual
/-- `visit_dirs_or_file` from `walk.rs` (duplicated in `main.rs`).  `p` is
the path of `node` as a component list, `acc` the `append_to` vector.  A
file is appended and the call returns; otherwise `fs::read_dir(path)?` is
attempted — it fails (aborting via `?`) unless the node is a readable
directory — and the entries are iterated. -/
def visitDirsOrFile : List String → FsNode → List (List String) →
    Except String (List (List String))
  | p, .file, acc => .ok (acc ++ [p])
  | _, .other, _ => .error "read_dir failed"
  | _, .dir false _, _ => .error "read_dir failed"
  | p, .dir true es, acc => visitEntries p es acc

/-- The `for entry in dir.flatten()` loop of `visit_dirs_or_file`: errored
entries are skipped by `flatten`; a directory entry is recursed into (its
error, if any, propagating via `?`), a file entry is appended, anything
else is skipped. -/
def visitEntries : List String → EntryList → List (List String) →
    Except String (List (List String))
  | _, .nil, acc => .ok acc
  | p, .consErr rest, acc => visitEntries p rest acc
  | p, .consOk name node rest, acc =>
    if node.isDirNode then
      match visitDirsOrFile (p ++ [name]) node acc with
      | .error e => .error e
      | .ok acc2 => visitEntries p rest acc2
    else if node.isFileNode then
      visitEntries p rest (acc ++ [p ++ [name]])
    else
      visitEntries p rest acc
end

/-- Claim C6: the QR side length requested from the renderer is
`max(200, min(W, H) / 3)`, the division being floor integer division. -/
theorem c6_pixel_len_formula (w h : Nat) :
    pixel_len w h = Nat.max 200 (Nat.min w h / 3) ∧
    3 * (Nat.min w h / 3) ≤ Nat.min w h ∧
    Nat.min w h < 3 * (Nat.min w h / 3) + 3 := by
  refine ⟨Nat.max_comm _ _, ?_, ?_⟩ <;> omega

/-- Claim C2 (the code lacks the claimed guard): on a 100×100 image with a
rendered QR side of 150, `qrOffset` raises no error; the `u32` subtraction
wraps and the computed x-offset is `2^32 - 50`, far outside the image. -/
theorem c2_placement_underflow_wraps :
    qrOffset (some "top-right") 100 100 150 = ((4294967246, 0), false) ∧
    100 < 4294967246 :=
  ⟨rfl, by omega⟩

/-- Claim C3: for each recognized non-default position, with a square QR of
side `q ≤ min w h` and `u32`-ranged dimensions, the computed offsets are
exactly as specified, and offset plus QR side stays within the image on
both axes. -/
theorem c3_recognized_position_offsets (w h q : Nat)
    (hw : w < 4294967296) (hh : h < 4294967296) (hq : q ≤ Nat.min w h) :
    qrOffset (some "top-right") w h q = ((w - q, 0), false) ∧
    qrOffset (some "bottom-left") w h q = ((0, h - q), false) ∧
    qrOffset (some "bottom-right") w h q = ((w - q, h - q), false) ∧
    qrOffset (some "center") w h q = (((w - q) / 2, (h - q) / 2), false) ∧
    (w - q) + q ≤ w ∧ (h - q) + q ≤ h ∧
    (w - q) / 2 + q ≤ w ∧ (h - q) / 2 + q ≤ h := by
  have hqw : q ≤ w := le_trans hq (Nat.min_le_left _ _)
  have hqh : q ≤ h := le_trans hq (Nat.min_le_right _ _)
  have hsw : wsub w q = w - q := by unfold wsub; omega
  have hsh : wsub h q = h - q := by unfold wsub; omega
  have e1 : qrOffset (some "top-right") w h q = ((wsub w q, 0), false) := rfl
  have e2 : qrOffset (some "bottom-left") w h q = ((0, wsub h q), false) := rfl
  have e3 : qrOffset (some "bottom-right") w h q = ((wsub w q, wsub h q), false) := rfl
  have e4 : qrOffset (some "center") w h q = ((wsub w q / 2, wsub h q / 2), false) := rfl
  refine ⟨?_, ?_, ?_, ?_, ?_, ?_, ?_, ?_⟩
  · rw [e1, hsw]
  · rw [e2, hsh]
  · rw [e3, hsw, hsh]
  · rw [e4, hsw, hsh]
  all_goals omega

/-- Claim C3, witnessed at the concrete instance `W = 300`, `H = 200`,
`q = 100`. -/
theorem c3_offsets_witness :
    qrOffset (some "top-right") 300 200 100 = ((200, 0), false) ∧
    qrOffset (some "bottom-left") 300 200 100 = ((0, 100), false) ∧
    qrOffset (some "bottom-right") 300 200 100 = ((200, 100), false) ∧
    qrOffset (some "center") 300 200 100 = ((100, 50), false) ∧
    200 + 100 ≤ 300 ∧ 100 + 100 ≤ 200 ∧
    100 + 100 ≤ 300 ∧ 50 + 100 ≤ 200 :=
  c3_recognized_position_offsets 300 200 100 (by decide) (by decide) (by decide)

/-- Claim C7: an unrecognized position keyword yields offset `(0, 0)` with
the warning fired; the recognized keyword `top-left` and an absent keyword
yield `(0, 0)` with no warning. -/
theorem c7_unrecognized_position_fallback (p : String) (w h q : Nat)
    (hp : p ∉ ["top-left", "top-right", "bottom-left", "bottom-right", "center"]) :
    qrOffset (some p) w h q = ((0, 0), true) ∧
    qrOffset (some "top-left") w h q = ((0, 0), false) ∧
    qrOffset none w h q = ((0, 0), false) := by
  simp only [List.mem_cons, List.not_mem_nil, or_false, not_or] at hp
  obtain ⟨h1, h2, h3, h4, h5⟩ := hp
  refine ⟨?_, rfl, rfl⟩
  simp only [qrOffset, if_neg h2, if_neg h3, if_neg h4, if_neg h5]
  simp [h1]

/-- Claim C7, witnessed at the unrecognized keyword `oops` on a 10×10 image
with QR side 5. -/
theorem c7_fallback_witness :
    qrOffset (some "oops") 10 10 5 = ((0, 0), true) ∧
    qrOffset (some "top-left") 10 10 5 = ((0, 0), false) ∧
    qrOffset none 10 10 5 = ((0, 0), false) :=
  c7_unrecognized_position_fallback "oops" 10 10 5 (by decide)

/-- A split never produces the empty list of components. -/
theorem splitOnDot_ne_nil (l : List Char) : splitOnDot l ≠ [] := by
  cases l with
  | nil => simp [splitOnDot]
  | cons c cs =>
    by_cases h : c = '.' <;> simp [splitOnDot, h]

/-- The first component of a split is the longest dot-free leading run. -/
theorem splitOnDot_headD (l : List Char) :
    (splitOnDot l).headD [] = l.takeWhile (fun c => c != '.') := by
  induction l with
  | nil => rfl
  | cons c cs ih =>
    by_cases h : c = '.'
    · subst h
      simp [splitOnDot, List.takeWhile_cons]
    · simp only [List.headD_eq_head?] at ih
      simp [splitOnDot, h, List.takeWhile_cons, ih]

/-- The first component of a split, in `head?.getD` form. -/
theorem splitOnDot_head_getD (l : List Char) :
    (splitOnDot l).head?.getD [] = l.takeWhile (fun c => c != '.') := by
  rw [← List.headD_eq_head?]
  exact splitOnDot_headD l

/-- Splitting a dot-free string yields a single component. -/
theorem splitOnDot_of_no_dot (l : List Char) (h : ('.' : Char) ∉ l) :
    splitOnDot l = [l] := by
  induction l with
  | nil => rfl
  | cons c cs ih =>
    simp only [List.mem_cons, not_or] at h
    obtain ⟨h1, h2⟩ := h
    simp [splitOnDot, show ¬ c = '.' from fun hc => h1 hc.symm, ih h2]

/-- Splitting around the first dot: a dot-free block followed by `'.'`
contributes one component, the rest splits on its own. -/
theorem splitOnDot_append_dot (s t : List Char) (h : ('.' : Char) ∉ s) :
    splitOnDot (s ++ '.' :: t) = s :: splitOnDot t := by
  induction s with
  | nil => simp [splitOnDot]
  | cons c s2 ih =>
    simp only [List.mem_cons, not_or] at h
    obtain ⟨h1, h2⟩ := h
    simp [splitOnDot, show ¬ c = '.' from fun hc => h1 hc.symm, ih h2]

/-- The dot-free leading run contains no dot. -/
theorem takeWhile_not_dot (l : List Char) :
    ('.' : Char) ∉ l.takeWhile (fun c => c != '.') := by
  intro hmem
  have := List.mem_takeWhile_imp hmem
  simp at this

/-- Claim C8 counterexample: on the multi-dot filename `a.tar.gz` (no
overlay) the code produces `a_merged.gz`, while suffixing the filename stem
`a.tar` as the claim states would produce `a.tar_merged.gz`. -/
theorem c8_output_name_counterexample :
    outputFn ("a.tar.gz".toList) false = some ("a_merged.gz".toList) ∧
    fileStem ("a.tar.gz".toList) = some ("a.tar".toList) ∧
    ¬ outputFn ("a.tar.gz".toList) false =
        (fileStem ("a.tar.gz".toList)).map
          (fun s => s ++ ("_merged.".toList) ++ ("gz".toList)) := by
  refine ⟨?_, ?_, ?_⟩ <;> decide

/-- Claim C8 as amended: the output name is the portion of the source
filename before its first dot (the filename stem only when the name has at
most one dot), suffixed `_merged.<ext>`, with `<ext>` equal to `png` when
QR-overlay is active and to the source extension otherwise (`none` when
that extension is missing and the program panics). -/
theorem c8_output_name_amended (name : List Char) (overlap : Bool) :
    outputFn name overlap =
      (if overlap then some ("png".toList) else rustExtension name).map
        (fun e => name.takeWhile (fun c => c != '.') ++ ("_merged.".toList) ++ e) := by
  simp [outputFn, splitOnDot_head_getD]

/-- Claim C9: with the overlay flag set but no password, the raw source
bytes are copied verbatim as the output prefix, the warning fires, no
composited image is written, and the output file is still named with a
`png` extension whatever the source format was. -/
theorem c9_overlap_without_password (imgData pngEncoded : List Nat)
    (name : List Char) :
    writtenBytes none true imgData pngEncoded = (imgData, true) ∧
    ∃ out, outputFn name true = some out ∧ rustExtension out = some ("png".toList) := by
  refine ⟨rfl, ⟨name.takeWhile (fun c => c != '.') ++ ("_merged.".toList) ++ ("png".toList),
    ?_, ?_⟩⟩
  · simp [outputFn, splitOnDot_head_getD]
  · have h1 : ('.' : Char) ∉ (name.takeWhile (fun c => c != '.') ++ ("_merged".toList)) := by
      intro hm
      rcases List.mem_append.mp hm with hm1 | hm2
      · exact takeWhile_not_dot name hm1
      · simp at hm2
    have hrw : name.takeWhile (fun c => c != '.') ++ ("_merged.".toList) ++ ("png".toList)
        = (name.takeWhile (fun c => c != '.') ++ ("_merged".toList)) ++ '.' :: ("png".toList) := by
      rw [show ("_merged.".toList : List Char) = ("_merged".toList) ++ ['.'] from rfl]
      simp
    rw [hrw]
    have h2 := splitOnDot_append_dot _ ("png".toList) h1
    rw [splitOnDot_of_no_dot ("png".toList) (by decide)] at h2
    have h3 : (name.takeWhile (fun c => c != '.') ++ ("_merged".toList)) ≠ [] := by
      simp
    simp only [rustExtension, h2]
    simp [h3]

/-- Claim C4 counterexample: a readable directory whose listing yields one
errored entry (skipped by `flatten`) and one file walks to success — a read
error met during the walk does not abort it as the claim states. -/
theorem c4_read_error_not_fatal :
    visitDirsOrFile ["root"] (.dir true (.consErr (.consOk "a" .file .nil))) [] =
      Except.ok [["root", "a"]] := rfl

/-- Claim C4 as amended: the walker appends a regular file; `read_dir`
failures (a broken symlink or unreadable directory as the argument, at the
top level or in a recursive call) abort the walk; within a directory
listing, errored entries and entries that are neither file nor directory
are silently skipped, files are appended and subdirectories recursed into
with errors propagated. -/
theorem c4_walk_error_policy (p : List String) (name : String) (r : Bool)
    (es es2 rest : EntryList) (acc : List (List String)) :
    visitDirsOrFile p .file acc = .ok (acc ++ [p]) ∧
    visitDirsOrFile p .other acc = .error "read_dir failed" ∧
    visitDirsOrFile p (.dir false es) acc = .error "read_dir failed" ∧
    visitDirsOrFile p (.dir true es) acc = visitEntries p es acc ∧
    visitEntries p .nil acc = .ok acc ∧
    visitEntries p (.consErr rest) acc = visitEntries p rest acc ∧
    visitEntries p (.consOk name .file rest) acc =
      visitEntries p rest (acc ++ [p ++ [name]]) ∧
    visitEntries p (.consOk name .other rest) acc = visitEntries p rest acc ∧
    visitEntries p (.consOk name (.dir r es2) rest) acc =
      Except.bind (visitDirsOrFile (p ++ [name]) (.dir r es2) acc)
        (fun a => visitEntries p rest a) := by
  refine ⟨rfl, rfl, rfl, rfl, rfl, rfl, rfl, rfl, ?_⟩
  show (match visitDirsOrFile (p ++ [name]) (.dir r es2) acc with
    | .error e => Except.error e
    | .ok acc2 => visitEntries p rest acc2) = _
  cases visitDirsOrFile (p ++ [name]) (.dir r es2) acc <;> rfl

mutual
/-- A successful walk of a node only ever appends to the accumulator. -/
theorem visitNode_appends (node : FsNode) : ∀ (p : List String)
    (acc res : List (List String)),
    visitDirsOrFile p node acc = Except.ok res → ∃ t, res = acc ++ t := by
  cases node with
  | file =>
    intro p acc res h
    exact ⟨[p], (Except.ok.inj h).symm⟩
  | other =>
    intro p acc res h
    exact absurd h (by simp [visitDirsOrFile])
  | dir readable es =>
    cases readable with
    | false =>
      intro p acc res h
      exact absurd h (by simp [visitDirsOrFile])
    | true =>
      intro p acc res h
      exact visitEntriesAppends es p acc res h

/-- A successful iteration of a listing only ever appends to the
accumulator. -/
theorem visitEntriesAppends (es : EntryList) : ∀ (p : List String)
    (acc res : List (List String)),
    visitEntries p es acc = Except.ok res → ∃ t, res = acc ++ t := by
  cases es with
  | nil =>
    intro p acc res h
    exact ⟨[], by simpa using (Except.ok.inj h).symm⟩
  | consErr rest =>
    intro p acc res h
    exact visitEntriesAppends rest p acc res h
  | consOk name node rest =>
    intro p acc res h
    cases node with
    | file =>
      obtain ⟨t, ht⟩ := visitEntriesAppends rest p (acc ++ [p ++ [name]]) res h
      exact ⟨[p ++ [name]] ++ t, by simpa [List.append_assoc] using ht⟩
    | other =>
      exact visitEntriesAppends rest p acc res h
    | dir r es2 =>
      rw [show visitEntries p (.consOk name (.dir r es2) rest) acc =
        (match visitDirsOrFile (p ++ [name]) (.dir r es2) acc with
          | .error e => Except.error e
          | .ok acc2 => visitEntries p rest acc2) from rfl] at h
      cases hv : visitDirsOrFile (p ++ [name]) (.dir r es2) acc with
      | error e =>
        rw [hv] at h
        exact absurd h (by simp)
      | ok acc2 =>
        rw [hv] at h
        obtain ⟨t1, ht1⟩ := visitNode_appends (.dir r es2) (p ++ [name]) acc acc2 hv
        obtain ⟨t2, ht2⟩ := visitEntriesAppends rest p acc2 res h
        exact ⟨t1 ++ t2, by simp [ht2, ht1, List.append_assoc]⟩
end

/-- Claim C10: a successful `visit_dirs_or_file` call leaves the previously
accumulated entries unchanged, in order, returning the original vector with
the newly discovered paths appended after it. -/
theorem c10_accumulator_preserved (p : List String) (node : FsNode)
    (acc res : List (List String))
    (h : visitDirsOrFile p node acc = Except.ok res) : ∃ t, res = acc ++ t :=
  visitNode_appends node p acc res h

/-- Claim C10, witnessed on a one-file directory walked with a nonempty
accumulator. -/
theorem c10_accumulator_witness :
    ∃ t, [["z"], ["d", "a"]] = ([["z"]] : List (List String)) ++ t :=
  c10_accumulator_preserved ["d"] (.dir true (.consOk "a" .file .nil)) [["z"]]
    [["z"], ["d", "a"]] rfl
